import Mathlib

/-!
Verification of the NEMF photo review server core (src/app/server.py)
against its natural-language specification.

The Python module keeps its shared state in dictionaries; we embed a
dictionary as an association list `List (String × α)` whose operations
mirror CPython dict semantics (insertion order preserved, key update in
place, deletion removes the unique entry).  Timestamps (`datetime.now()`,
`timedelta(minutes=...)`) are embedded as integers measured in minutes.
-/

namespace NemfReview

/-- Association-list lookup, mirroring `d.get(k)` on a Python dict. -/
def alookup {α : Type} : List (String × α) → String → Option α
  | [], _ => none
  | (k', v) :: rest, k => if k' = k then some v else alookup rest k

/-- Association-list store, mirroring `d[k] = v` on a Python dict:
replaces the value in place if the key is present, otherwise appends. -/
def aset {α : Type} : List (String × α) → String → α → List (String × α)
  | [], k, v => [(k, v)]
  | (k', v') :: rest, k, v =>
    if k' = k then (k, v) :: rest else (k', v') :: aset rest k v

/-- Association-list deletion, mirroring `del d[k]` on a Python dict. -/
def aerase {α : Type} : List (String × α) → String → List (String × α)
  | [], _ => []
  | (k', v') :: rest, k => if k' = k then rest else (k', v') :: aerase rest k

/-- Keyed in-place update of the value at `k` (no-op on other keys),
mirroring mutation of the value object held at a Python dict key. -/
def aupdate {α : Type} (t : List (String × α)) (k : String) (f : α → α) :
    List (String × α) :=
  t.map (fun e => if e.1 = k then (e.1, f e.2) else e)

/-- Python truthiness of an optional string (`None` and `""` are falsy). -/
def pyTruthyStr : Option String → Bool
  | none => false
  | some s => decide (s ≠ "")

/-- Python truthiness of an optional integer (`None` and `0` are falsy). -/
def truthyNat : Option Nat → Bool
  | none => false
  | some n => decide (n ≠ 0)

/-! ## Claim manager (server.py lines 35-241) -/

/-- One entry of the `claims` table:
`{"user": username, "claimed_at": datetime, "heartbeat": datetime}`. -/
structure Claim where
  user : String
  claimed_at : Int
  heartbeat : Int
deriving DecidableEq

/-- `CLAIM_TIMEOUT_MINUTES = 10`. -/
def CLAIM_TIMEOUT_MINUTES : Int := 10

/-- `CLAIM_OVERRIDE_MINUTES = 30`. -/
def CLAIM_OVERRIDE_MINUTES : Int := 30

/-- The in-memory claim table `claims = {}`. -/
abbrev ClaimTable : Type := List (String × Claim)

/-- The expiry test inside `cleanup_expired_claims`:
`now - heartbeat > timedelta(minutes=CLAIM_TIMEOUT_MINUTES)`. -/
def claimExpired (now : Int) (c : Claim) : Bool :=
  decide (now - c.heartbeat > CLAIM_TIMEOUT_MINUTES)

/-- `cleanup_expired_claims()`: collects every filename whose claim's
heartbeat is older than the timeout and deletes those entries. -/
def cleanup_expired_claims (now : Int) (t : ClaimTable) : ClaimTable :=
  List.filter (fun e => !claimExpired now e.2) t

/-- `get_claim(filename)`: purge expired claims, then `claims.get(filename)`.
Returns the lookup result together with the purged table (the purge is a
persistent mutation of the module-level dict). -/
def get_claim (t : ClaimTable) (now : Int) (filename : String) :
    Option Claim × ClaimTable :=
  (alookup (cleanup_expired_claims now t) filename, cleanup_expired_claims now t)

/-- The message component of `try_claim`'s result tuple. -/
inductive ClaimMsg where
  | claimed
  | claimRefreshed
  | claimedWas (prevUser : String)
  | claimedBy (holder : String)
deriving DecidableEq

/-- The `(success, message, claimed_by)` tuple returned by `try_claim`. -/
structure ClaimResult where
  success : Bool
  message : ClaimMsg
  claimed_by : String
deriving DecidableEq

/-- `try_claim(filename, username, force=False)` (server.py 164-199). -/
def try_claim (t : ClaimTable) (now : Int) (filename username : String)
    (force : Bool) : ClaimResult × ClaimTable :=
  let t := cleanup_expired_claims now t
  match alookup t filename with
  | some existing =>
    if existing.user = username then
      (⟨true, .claimRefreshed, username⟩,
        aset t filename { existing with heartbeat := now })
    else if force || decide (now - existing.claimed_at > CLAIM_OVERRIDE_MINUTES) then
      (⟨true, .claimedWas existing.user, username⟩,
        aset t filename ⟨username, now, now⟩)
    else
      (⟨false, .claimedBy existing.user, existing.user⟩, t)
  | none =>
    (⟨true, .claimed, username⟩, aset t filename ⟨username, now, now⟩)

/-- `release_claim(filename, username)` (server.py 202-208): deletes the
claim only when present and held by `username`; performs no expiry purge. -/
def release_claim (t : ClaimTable) (filename username : String) :
    Bool × ClaimTable :=
  match alookup t filename with
  | some c => if c.user = username then (true, aerase t filename) else (false, t)
  | none => (false, t)

/-- The first loop of `try_claim_multiple`: every filename held by another
user whose claim is still inside the override window, paired with its
holder. -/
def multiFailed (t : ClaimTable) (now : Int) (username : String)
    (filenames : List String) : List (String × String) :=
  filenames.filterMap (fun fn =>
    match alookup t fn with
    | some existing =>
      if existing.user ≠ username ∧
          now - existing.claimed_at ≤ CLAIM_OVERRIDE_MINUTES then
        some (fn, existing.user)
      else none
    | none => none)

/-- The second loop of `try_claim_multiple`: grant every filename to
`username` with `claimed_at = heartbeat = now`. -/
def grantAll (t : ClaimTable) (now : Int) (username : String)
    (filenames : List String) : ClaimTable :=
  filenames.foldl (fun acc fn => aset acc fn ⟨username, now, now⟩) t

/-- `try_claim_multiple(filenames, username)` (server.py 211-241). -/
def try_claim_multiple (t : ClaimTable) (now : Int) (filenames : List String)
    (username : String) : (Bool × List (String × String)) × ClaimTable :=
  let t := cleanup_expired_claims now t
  let failed := multiFailed t now username filenames
  if failed = [] then ((true, []), grantAll t now username filenames)
  else ((false, failed), t)

/-! ## View history (server.py 244-267) -/

/-- `add_to_view_history(filename, username)` acting on the one user's
list: remove the filename if present, insert at the front, truncate to the
last 100 views. -/
def add_to_view_history (filename : String) (history : List String) :
    List String :=
  let history := if filename ∈ history then history.erase filename else history
  let history := filename :: history
  if history.length > 100 then history.take 100 else history

/-- `get_view_history(username)`: returns a copy of the stored list (in a
pure embedding, the list itself). -/
def get_view_history (history : List String) : List String := history

/-- The history produced by a sequence of `add_to_view_history` calls for
one user, oldest call first, starting from the user's initial empty list. -/
def record_views (views : List String) : List String :=
  views.foldl (fun h v => add_to_view_history v h) []

/-- Reverse-chronological deduplication: keeps the first occurrence of
each key in a most-recent-first sequence. -/
def dedupKeepFirst : List String → List String
  | [] => []
  | v :: rest => v :: (dedupKeepFirst rest).filter (fun x => x != v)

/-- The reference order of the spec's ViewHistoryEntry, written from the
spec's words: all recorded views most-recent-first (the reverse of the
call sequence), deduplicated so a re-viewed item counts only at its most
recent position.  `record_views` is proven equal to the first 100 entries
of this list, so the entries evicted at the cap are exactly the oldest
ones. -/
def mruOrder (views : List String) : List String :=
  dedupKeepFirst views.reverse

/-! ## Review store data model

A stored item is `{'source': {...}, 'review': {...}, 'priority': [...]}`
(created by prepare_review_data.py 383-415).  The review dict's fields are
the ones the server reads and writes; a field holding Python `None` or
absent from the dict is embedded as `Option.none` (the server reads every
field with `.get`, which returns `None` in both cases). -/

/-- The mutable `review` sub-dict of an item. -/
structure Review where
  status : Option String
  field_code : Option String
  date : Option String
  location : Option String
  location_id : Option Nat
  name : Option String
  name_id : Option Nat
  notes : Option String
  linked_images : Option (List String)
  mo_id_type : Option String
  mo_id_value : Option String
  mo_observation_id : Option Nat
  mo_image_id : Option Nat
  mo_observation_url : Option String
  field_locks : Option (List (String × Bool))
  reviewed_at : Option Int
  reviewer : Option String
deriving DecidableEq

/-- A review record with every field `None`, as prepare_review_data.py
initializes it (fields it omits read back as `None` through `.get`). -/
def emptyReview : Review :=
  ⟨none, none, none, none, none, none, none, none, none, none, none, none,
   none, none, none, none, none⟩

/-- One item of `review_data['images']`.  The immutable `source` sub-dict
is never inspected by the operations verified here and is kept as raw
key/value pairs; `priority` is the JSON priority tuple (booleans as 0/1, compared as
integers exactly as Python compares them). -/
structure Image where
  source : List (String × String)
  review : Review
  priority : List Int
deriving DecidableEq

/-- The `review_data['images']` dict. -/
abbrev Images : Type := List (String × Image)

/-- Replace the review record of the item stored at `k`. -/
def mapReview (imgs : Images) (k : String) (f : Review → Review) : Images :=
  aupdate imgs k (fun img => { img with review := f img.review })

/-- Key-membership test `filename in review_data['images']`. -/
def hasImage (imgs : Images) (k : String) : Bool :=
  (alookup imgs k).isSome

/-- The linked-image list of the item at `k` (empty when the item is
absent or its review has no linked list), i.e. what the server reads with
`img['review'].get('linked_images', [])`. -/
def linkedOf (imgs : Images) (k : String) : List String :=
  ((alookup imgs k).map (fun img => img.review.linked_images.getD [])).getD []

/-! ## Canonical order and navigation (server.py 286-345, 433-439) -/

/-- Python's lexicographic `<` on integer tuples (of possibly different
lengths, as tuple comparison behaves when one is a proper prefix). -/
def lexLtInt : List Int → List Int → Bool
  | [], [] => false
  | [], _ :: _ => true
  | _ :: _, [] => false
  | x :: xs, y :: ys =>
    if x < y then true else if y < x then false else lexLtInt xs ys

/-- The sort key `(tuple(images[k]['priority']), k)` used by
`get_sorted_images`. -/
def imageKey (imgs : Images) (k : String) : List Int × String :=
  (((alookup imgs k).map Image.priority).getD [], k)

/-- Python's `<` on the `(priority, key)` pairs. -/
def imageKeyLt (a b : List Int × String) : Bool :=
  lexLtInt a.1 b.1 || (a.1 == b.1 && decide (a.2 < b.2))

/-- Stable insertion of `a` into a sorted list under the non-strict
relation `le`. -/
def orderedInsert (le : String → String → Bool) (a : String) :
    List String → List String
  | [] => [a]
  | b :: l => if le a b then a :: b :: l else b :: orderedInsert le a l

/-- Stable insertion sort: the unique stable sort, hence the sequence
Python's stable `sorted` produces for the same total preorder. -/
def insertionSort (le : String → String → Bool) : List String → List String
  | [] => []
  | a :: l => orderedInsert le a (insertionSort le l)

/-- `get_sorted_images()`: item keys sorted by `(priority, key)`.  The
key includes the item key itself, so the preorder is total and the stable
sort is unique. -/
def get_sorted_images (imgs : Images) : List String :=
  insertionSort (fun a b => !imageKeyLt (imageKey imgs b) (imageKey imgs a))
    (imgs.map Prod.fst)

/-- The resolution test of server.py 329-331:
`status in ('already_on_mo', 'excluded', 'approved', 'corrected') or mo_obs_id`. -/
def isResolvedReview (r : Review) : Bool :=
  (match r.status with
   | some s =>
     decide (s = "already_on_mo" ∨ s = "excluded" ∨ s = "approved" ∨ s = "corrected")
   | none => false)
  || truthyNat r.mo_observation_id

/-- The body of the search loop of `get_next_unreviewed_for_user`: the
item exists, is not resolved, and `get_claim` (over the already-purged
claim table) finds no claim or the caller's own claim. -/
def nextUnreviewedPred (imgs : Images) (cleanClaims : ClaimTable)
    (username : String) (fn : String) : Bool :=
  match alookup imgs fn with
  | some img =>
    !isResolvedReview img.review &&
      (match alookup cleanClaims fn with
       | none => true
       | some c => decide (c.user = username))
  | none => false

/-- The rotation step of `get_next_unreviewed_for_user` (server.py
297-311): canonical order starting just past `current_filename` (when
truthy and present), wrapping to the beginning. -/
def searchOrder (imgs : Images) (current_filename : Option String) :
    List String :=
  let sorted_images := get_sorted_images imgs
  let start_index :=
    if pyTruthyStr current_filename ∧ current_filename.getD "" ∈ sorted_images
    then List.indexOf (current_filename.getD "") sorted_images + 1
    else 0
  sorted_images.drop start_index ++ sorted_images.take start_index

/-- The two filters of `get_next_unreviewed_for_user` (server.py
312-321): drop `current_filename` itself (when truthy), then drop the
exclusion set (when non-empty). -/
def searchList (imgs : Images) (current_filename : Option String)
    (exclude_history : List String) : List String :=
  let search_list := searchOrder imgs current_filename
  let search_list :=
    if pyTruthyStr current_filename then
      search_list.filter (fun f => decide (f ≠ current_filename.getD ""))
    else search_list
  if exclude_history.isEmpty then search_list
  else search_list.filter (fun f => !exclude_history.contains f)

/-- `get_next_unreviewed_for_user(username, current_filename=None,
exclude_history=None)` (server.py 286-345): the first item of the rotated,
filtered search list that is unresolved and not claimed by another live
user.  `exclude_history = None` and `exclude_history = []` behave
identically (both falsy), so the parameter is a plain list. -/
def get_next_unreviewed_for_user (imgs : Images) (claims : ClaimTable)
    (now : Int) (username : String) (current_filename : Option String)
    (exclude_history : List String) : Option String :=
  (searchList imgs current_filename exclude_history).find?
    (nextUnreviewedPred imgs (cleanup_expired_claims now claims) username)

/-- The qualification predicate in `next_unresolved`'s contract: the item
exists in the store, is not the (truthy) current item, lies outside the
exclusion set, is not resolved, and carries no live claim by another
user. -/
def qualifiesNext (imgs : Images) (claims : ClaimTable) (now : Int)
    (username : String) (current : Option String) (exclude : List String)
    (fn : String) : Prop :=
  ∃ img, alookup imgs fn = some img ∧
    (pyTruthyStr current = true → current ≠ some fn) ∧
    fn ∉ exclude ∧
    isResolvedReview img.review = false ∧
    ∀ c, alookup (cleanup_expired_claims now claims) fn = some c →
      c.user = username

/-! ## Review finalization (server.py 646-751) -/

/-- The JSON body of a review POST.  An outer `none` means the key is
absent from the body, in which case `data.get(key, old)` falls back to the
stored value; a present key carries the sent value (possibly JSON null for
the nullable fields, hence the nested `Option`). -/
structure ReviewRequest where
  status : Option (Option String)
  field_code : Option (Option String)
  date : Option (Option String)
  location : Option (Option String)
  location_id : Option (Option Nat)
  name : Option (Option String)
  name_id : Option (Option Nat)
  notes : Option (Option String)
  linked_images : Option (List String)
  mo_id_type : Option (Option String)
  mo_id_value : Option (Option String)
  mo_observation_id : Option (Option Nat)
  mo_image_id : Option (Option Nat)
  mo_observation_url : Option (Option String)
  field_locks : Option (List (String × Bool))
deriving DecidableEq

/-- A request body with every key absent. -/
def emptyRequest : ReviewRequest :=
  ⟨none, none, none, none, none, none, none, none, none, none, none, none,
   none, none, none⟩

/-- The field-update block of `api_review_image` (server.py 667-684):
`review[k] = data.get(k, review.get(k))` for each review field, with
`linked_images` and `field_locks` defaulting to `[]` / `{}`, and
`reviewed_at` / `reviewer` stamped unconditionally. -/
def mergeReview (review : Review) (data : ReviewRequest) (now : Int)
    (username : String) : Review :=
  { status := data.status.getD review.status
    field_code := data.field_code.getD review.field_code
    date := data.date.getD review.date
    location := data.location.getD review.location
    location_id := data.location_id.getD review.location_id
    name := data.name.getD review.name
    name_id := data.name_id.getD review.name_id
    notes := data.notes.getD review.notes
    linked_images := some (data.linked_images.getD (review.linked_images.getD []))
    mo_id_type := data.mo_id_type.getD review.mo_id_type
    mo_id_value := data.mo_id_value.getD review.mo_id_value
    mo_observation_id := data.mo_observation_id.getD review.mo_observation_id
    mo_image_id := data.mo_image_id.getD review.mo_image_id
    mo_observation_url := data.mo_observation_url.getD review.mo_observation_url
    field_locks := some (data.field_locks.getD (review.field_locks.getD []))
    reviewed_at := some now
    reviewer := some username }

/-- The bidirectional-link step of `api_review_image` (server.py 687-695)
applied to one target review: append `source_filename` to the target's
linked list when it is not already there. -/
def addLink (source_filename : String) (t : Review) : Review :=
  let l := t.linked_images.getD []
  if source_filename ∈ l then t
  else { t with linked_images := some (l ++ [source_filename]) }

/-- The propagation condition of server.py 698:
`review['status'] in ('approved', 'corrected', 'already_on_mo', 'excluded')`. -/
def terminalStatus (s : Option String) : Bool :=
  match s with
  | some v =>
    decide (v = "approved" ∨ v = "corrected" ∨ v = "already_on_mo" ∨ v = "excluded")
  | none => false

/-- `propagate_review_data(source_filename, target_filename, source_review,
username)` (server.py 721-751), acting on the target's review record. -/
def propagate_review_data (source_filename : String) (source_review : Review)
    (username : String) (now : Int) (target : Review) : Review :=
  if pyTruthyStr target.status then target
  else
    let status :=
      if source_review.status = some "already_on_mo" ∨
          source_review.status = some "excluded"
      then source_review.status else some "approved"
    let linked :=
      let l := target.linked_images.getD []
      if source_filename ∈ l then l else l ++ [source_filename]
    { target with
      field_code := source_review.field_code
      date := source_review.date
      location := source_review.location
      location_id := source_review.location_id
      name := source_review.name
      name_id := source_review.name_id
      mo_observation_id := source_review.mo_observation_id
      mo_id_type := source_review.mo_id_type
      mo_id_value := source_review.mo_id_value
      status := status
      reviewed_at := some now
      reviewer := some (username ++ ":propagated_from:" ++ source_filename)
      linked_images := some linked }

/-- The complete effect of one finalize of `source_filename` on one linked
target's review record (server.py 687-701): first the bidirectional-link
step, then — when the merged source status is terminal — propagation. -/
def finalizeTargetUpdate (source_filename : String) (source_review : Review)
    (username : String) (now : Int) (t : Review) : Review :=
  let t := addLink source_filename t
  if terminalStatus source_review.status then
    propagate_review_data source_filename source_review username now t
  else t

/-! ## Linking routes (server.py 754-850) -/

/-- The HTTP-visible outcome of `api_link_image`. -/
inductive LinkOutcome where
  | badRequest
  | notFoundSource
  | notFoundTarget
  | claimConflict (failed : List (String × String))
  | success
deriving DecidableEq

/-- `api_link_image(filename)` with body `{'target': target}`
(server.py 754-802). -/
def api_link_image (imgs : Images) (claims : ClaimTable) (now : Int)
    (username filename : String) (target : Option String) :
    LinkOutcome × Images × ClaimTable :=
  if ¬ pyTruthyStr target then (.badRequest, imgs, claims)
  else
    let tf := target.getD ""
    if ¬ hasImage imgs filename then (.notFoundSource, imgs, claims)
    else if ¬ hasImage imgs tf then (.notFoundTarget, imgs, claims)
    else
      let r := try_claim_multiple claims now [filename, tf] username
      if r.1.1 = false then (.claimConflict r.1.2, imgs, r.2)
      else
        let imgs := mapReview imgs filename (addLink tf)
        let imgs := mapReview imgs tf (addLink filename)
        (.success, imgs, r.2)

/-- The HTTP-visible outcome of `api_unlink_image`. -/
inductive UnlinkOutcome where
  | badRequest
  | notFoundSource
  | notFoundTarget
  | forbidden
  | success
deriving DecidableEq

/-- The removal step of `api_unlink_image` on one review record:
`if target in linked: linked.remove(target)` (removes the first
occurrence, as Python `list.remove` does). -/
def removeLink (other : String) (t : Review) : Review :=
  let l := t.linked_images.getD []
  if other ∈ l then { t with linked_images := some (l.erase other) } else t

/-- `api_unlink_image(filename)` with body `{'target': target}`
(server.py 805-850).  `get_claim` purges expired claims as a side effect,
so the returned claim table is the purged one. -/
def api_unlink_image (imgs : Images) (claims : ClaimTable) (now : Int)
    (username filename : String) (target : Option String) :
    UnlinkOutcome × Images × ClaimTable :=
  if ¬ pyTruthyStr target then (.badRequest, imgs, claims)
  else
    let tf := target.getD ""
    if ¬ hasImage imgs filename then (.notFoundSource, imgs, claims)
    else if ¬ hasImage imgs tf then (.notFoundTarget, imgs, claims)
    else
      let cleaned := cleanup_expired_claims now claims
      match alookup cleaned filename with
      | none => (.forbidden, imgs, cleaned)
      | some c =>
        if c.user ≠ username then (.forbidden, imgs, cleaned)
        else
          let imgs := mapReview imgs filename (removeLink tf)
          let imgs := mapReview imgs tf (removeLink filename)
          (.success, imgs, cleaned)

/-! ## Snapshot summary (server.py 405-430) -/

/-- The `review_summary` block of the persisted snapshot. -/
structure Summary where
  total : Nat
  reviewed : Nat
  approved : Nat
  corrected : Nat
  excluded : Nat
  already_on_mo : Nat
deriving DecidableEq

/-- One iteration of the summary-recomputation loop of `save_data`
(server.py 416-427). -/
def summaryStep (acc : Summary) (e : String × Image) : Summary :=
  let status := e.2.review.status
  if pyTruthyStr status then
    let acc := { acc with reviewed := acc.reviewed + 1 }
    if status = some "approved" then { acc with approved := acc.approved + 1 }
    else if status = some "corrected" then { acc with corrected := acc.corrected + 1 }
    else if status = some "excluded" then { acc with excluded := acc.excluded + 1 }
    else if status = some "already_on_mo" then
      { acc with already_on_mo := acc.already_on_mo + 1 }
    else acc
  else acc

/-- The summary-recomputation of `save_data` (server.py 408-427): zero the
five counters, then walk the item map incrementing them. -/
def save_data_summary (imgs : Images) (s : Summary) : Summary :=
  imgs.foldl summaryStep
    { s with reviewed := 0, approved := 0, corrected := 0, excluded := 0,
             already_on_mo := 0 }

/-! ## Concrete sample states used to instantiate the theorems -/

/-- A two-item store: `"a"` and `"b"`, both unreviewed, `"a"` first in
canonical order. -/
def sampleImages : Images :=
  [("a", ⟨[], emptyReview, [0]⟩), ("b", ⟨[], emptyReview, [1]⟩)]

/-- A single live claim held by alice since minute 0. -/
def sampleClaims : ClaimTable := [("f", ⟨"alice", 0, 0⟩)]

/-- A finalized source review with terminal status `approved` and resolved
descriptive fields. -/
def sampleSourceReview : Review :=
  { emptyReview with
    status := some "approved"
    field_code := some "NEMF-0001"
    date := some "2024-09-18"
    location := some "Big Woods"
    location_id := some 7
    name := some "Amanita"
    name_id := some 9
    mo_id_type := some "observation"
    mo_id_value := some "123"
    mo_observation_id := some 123 }

/-! ## Association-list lemmas -/

theorem alookup_cons {α : Type} (k' : String) (v : α) (rest : List (String × α))
    (k : String) :
    alookup ((k', v) :: rest) k = if k' = k then some v else alookup rest k := rfl

theorem alookup_eq_none_of_not_mem {α : Type} (t : List (String × α)) (k : String)
    (h : k ∉ t.map Prod.fst) : alookup t k = none := by
  induction t with
  | nil => rfl
  | cons e rest ih =>
    obtain ⟨k', v⟩ := e
    simp only [List.map_cons, List.mem_cons, not_or] at h
    rw [alookup_cons, if_neg (fun hh => h.1 hh.symm)]
    exact ih h.2

theorem alookup_isSome_of_mem {α : Type} (t : List (String × α)) (k : String)
    (h : k ∈ t.map Prod.fst) : ∃ v, alookup t k = some v := by
  induction t with
  | nil => simp at h
  | cons e rest ih =>
    obtain ⟨k', v⟩ := e
    simp only [List.map_cons, List.mem_cons] at h
    rw [alookup_cons]
    by_cases hk : k' = k
    · exact ⟨v, if_pos hk⟩
    · rw [if_neg hk]
      rcases h with h1 | h1
      · exact absurd h1.symm hk
      · exact ih h1

theorem mem_of_alookup_eq_some {α : Type} (t : List (String × α)) (k : String)
    (v : α) (h : alookup t k = some v) : k ∈ t.map Prod.fst := by
  by_contra hmem
  rw [alookup_eq_none_of_not_mem t k hmem] at h
  exact Option.noConfusion h

theorem pair_mem_of_alookup_eq_some {α : Type} (t : List (String × α))
    (k : String) (v : α) (h : alookup t k = some v) : (k, v) ∈ t := by
  induction t with
  | nil => exact Option.noConfusion h
  | cons e rest ih =>
    obtain ⟨k', v'⟩ := e
    rw [alookup_cons] at h
    by_cases hk : k' = k
    · rw [if_pos hk] at h
      cases Option.some.inj h
      subst hk
      exact List.mem_cons_self _ _
    · rw [if_neg hk] at h
      exact List.mem_cons_of_mem _ (ih h)

theorem alookup_aset_self {α : Type} (t : List (String × α)) (k : String) (v : α) :
    alookup (aset t k v) k = some v := by
  induction t with
  | nil => simp [aset, alookup_cons]
  | cons e rest ih =>
    obtain ⟨k', v'⟩ := e
    by_cases hk : k' = k
    · simp [aset, hk, alookup_cons]
    · simp [aset, hk, alookup_cons, ih]

theorem alookup_aset_ne {α : Type} (t : List (String × α)) (k k' : String) (v : α)
    (h : k' ≠ k) : alookup (aset t k v) k' = alookup t k' := by
  induction t with
  | nil =>
    have hne : ¬ (k = k') := fun hh => h hh.symm
    simp [aset, alookup_cons, hne]
  | cons e rest ih =>
    obtain ⟨ke, ve⟩ := e
    by_cases hk : ke = k
    · subst hk
      have hne : ¬ (ke = k') := fun hh => h hh.symm
      simp [aset, alookup_cons, hne]
    · simp [aset, hk, alookup_cons, ih]

theorem alookup_aupdate_self {α : Type} (t : List (String × α)) (k : String)
    (f : α → α) : alookup (aupdate t k f) k = (alookup t k).map f := by
  induction t with
  | nil => rfl
  | cons e rest ih =>
    obtain ⟨k', v⟩ := e
    by_cases hk : k' = k
    · simp [aupdate, hk, alookup_cons]
    · simp only [aupdate, List.map_cons] at ih ⊢
      simp [hk, alookup_cons, ih]

theorem alookup_aupdate_ne {α : Type} (t : List (String × α)) (k k' : String)
    (f : α → α) (h : k' ≠ k) : alookup (aupdate t k f) k' = alookup t k' := by
  induction t with
  | nil => rfl
  | cons e rest ih =>
    obtain ⟨ke, v⟩ := e
    by_cases hk : ke = k
    · subst hk
      have hne : ¬ (ke = k') := fun hh => h hh.symm
      simp only [aupdate, List.map_cons] at ih ⊢
      simp [alookup_cons, hne, ih]
    · simp only [aupdate, List.map_cons] at ih ⊢
      simp [hk, alookup_cons, ih]

theorem keys_aupdate {α : Type} (t : List (String × α)) (k : String) (f : α → α) :
    (aupdate t k f).map Prod.fst = t.map Prod.fst := by
  induction t with
  | nil => rfl
  | cons e rest ih =>
    obtain ⟨ke, v⟩ := e
    by_cases hk : ke = k <;>
      simp only [aupdate, List.map_cons] at ih ⊢ <;> simp [hk, ih]

theorem alookup_filter_of_nodup {α : Type} (p : String × α → Bool)
    (t : List (String × α)) (hnd : (t.map Prod.fst).Nodup) (k : String) (v : α) :
    alookup (t.filter p) k = some v ↔ alookup t k = some v ∧ p (k, v) = true := by
  induction t with
  | nil => simp [alookup]
  | cons e rest ih =>
    obtain ⟨k', v'⟩ := e
    simp only [List.map_cons, List.nodup_cons] at hnd
    by_cases hk : k' = k
    · subst hk
      by_cases hp : p (k', v') = true
      · rw [List.filter_cons, if_pos hp, alookup_cons, if_pos rfl, alookup_cons,
            if_pos rfl]
        constructor
        · intro h1
          refine ⟨h1, ?_⟩
          cases Option.some.inj h1
          exact hp
        · exact fun h1 => h1.1
      · have hnone : alookup (rest.filter p) k' = none := by
          apply alookup_eq_none_of_not_mem
          intro hmem
          exact hnd.1 (List.map_subset Prod.fst (List.filter_sublist rest).subset hmem)
        rw [List.filter_cons, if_neg hp, hnone, alookup_cons, if_pos rfl]
        constructor
        · intro h1
          exact Option.noConfusion h1
        · rintro ⟨h1, h2⟩
          cases Option.some.inj h1
          exact absurd h2 hp
    · by_cases hp : p (k', v') = true
      · rw [List.filter_cons, if_pos hp, alookup_cons, if_neg hk, alookup_cons,
            if_neg hk]
        exact ih hnd.2
      · rw [List.filter_cons, if_neg hp, alookup_cons, if_neg hk]
        exact ih hnd.2

/-! ## C2: single-item acquire -/

/-- C2.  `acquire` (= `try_claim`) behaves, over the lazily purged claim
table: with no live claim it grants recording `claimed_at = heartbeat =
now`; a live claim by the caller is refreshed (heartbeat only) and
reported *refreshed*; a live claim by another user is reassigned to the
caller with fresh timestamps, reporting the dispossessed holder, exactly
when `force` is true or `now - claimed_at` exceeds the 30-minute override
window; otherwise the call is denied reporting the current holder and the
table is left as purged. -/
theorem try_claim_spec (t : ClaimTable) (now : Int) (fn u : String) (force : Bool) :
    (alookup (cleanup_expired_claims now t) fn = none →
      try_claim t now fn u force =
        (⟨true, .claimed, u⟩,
         aset (cleanup_expired_claims now t) fn ⟨u, now, now⟩)) ∧
    (∀ c, alookup (cleanup_expired_claims now t) fn = some c → c.user = u →
      try_claim t now fn u force =
        (⟨true, .claimRefreshed, u⟩,
         aset (cleanup_expired_claims now t) fn ⟨u, c.claimed_at, now⟩)) ∧
    (∀ c, alookup (cleanup_expired_claims now t) fn = some c → c.user ≠ u →
      (force = true ∨ now - c.claimed_at > CLAIM_OVERRIDE_MINUTES) →
      try_claim t now fn u force =
        (⟨true, .claimedWas c.user, u⟩,
         aset (cleanup_expired_claims now t) fn ⟨u, now, now⟩)) ∧
    (∀ c, alookup (cleanup_expired_claims now t) fn = some c → c.user ≠ u →
      force = false → now - c.claimed_at ≤ CLAIM_OVERRIDE_MINUTES →
      try_claim t now fn u force =
        (⟨false, .claimedBy c.user, c.user⟩, cleanup_expired_claims now t)) := by
  refine ⟨fun h => ?_, fun c h hu => ?_, fun c h hu hov => ?_, fun c h hu hf hov => ?_⟩
  · simp [try_claim, h]
  · simp [try_claim, h, hu]
  · rcases hov with hov | hov
    · subst hov
      simp [try_claim, h, hu]
    · simp [try_claim, h, hu, hov]
  · subst hf
    simp [try_claim, h, hu, not_lt.mpr hov]

/-- Witness for C2: bob is denied the claim alice took 5 minutes ago. -/
theorem try_claim_spec_witness :
    try_claim sampleClaims 5 "f" "bob" false =
      (⟨false, .claimedBy "alice", "alice"⟩, sampleClaims) :=
  (try_claim_spec sampleClaims 5 "f" "bob" false).2.2.2 ⟨"alice", 0, 0⟩
    (by decide) (by decide) rfl (by decide)

/-! ## C3: lazy expiry -/

/-- Counterexample for C3 as stated.  At `now = 100` the claim on `"x"`
(heartbeat at minute 0) is expired, so by the claim releasing it should
behave like releasing a non-existent claim and return `false`; but
`release_claim` performs no expiry purge and returns `true` for the
expired claim, while on the purged table (where the claim really is
absent) it returns `false`. -/
theorem release_expired_claim_succeeds :
    claimExpired 100 ⟨"u", 0, 0⟩ = true ∧
    release_claim [("x", ⟨"u", 0, 0⟩)] "x" "u" = (true, []) ∧
    release_claim (cleanup_expired_claims 100 [("x", ⟨"u", 0, 0⟩)]) "x" "u" =
      (false, []) := by
  decide

/-- C3 amended.  Expired claims are purged before the *reads and acquire
writes* — `get_claim` (peek, and hence the claim checks of the review and
link routes) and, via `cleanup_expired_claims`, `try_claim` and
`try_claim_multiple` (whose theorems in this file are stated over the
purged table) — so
a peek never reports an expired claim.  `release_claim`, however, performs
no purge: it deletes whatever entry is present under the caller's name,
expired or not, and returns `false` exactly when no entry under the
caller's name is present, expired or not. -/
theorem release_claim_ignores_expiry (t : ClaimTable) (now : Int)
    (fn u : String) :
    (∀ c, (get_claim t now fn).1 = some c → claimExpired now c = false) ∧
    (get_claim t now fn).2 = cleanup_expired_claims now t ∧
    (∀ c, alookup t fn = some c → c.user = u →
      release_claim t fn u = (true, aerase t fn)) ∧
    (∀ c, alookup t fn = some c → c.user ≠ u →
      release_claim t fn u = (false, t)) ∧
    (alookup t fn = none → release_claim t fn u = (false, t)) := by
  refine ⟨fun c hc => ?_, rfl, fun c hc hu => ?_, fun c hc hu => ?_, fun hc => ?_⟩
  · simp only [get_claim] at hc
    have hmem : (fn, c) ∈ cleanup_expired_claims now t :=
      pair_mem_of_alookup_eq_some _ _ _ hc
    have := List.of_mem_filter hmem
    simpa using this
  · simp [release_claim, hc, hu]
  · simp [release_claim, hc, hu]
  · simp [release_claim, hc]

/-- Witness for C3's amended theorem: at `now = 100`, peeking the expired
claim on `"x"` reports nothing, yet its holder can still release it. -/
theorem release_claim_ignores_expiry_witness :
    (get_claim [("x", (⟨"u", 0, 0⟩ : Claim))] 100 "x").2 =
      cleanup_expired_claims 100 [("x", ⟨"u", 0, 0⟩)] ∧
    release_claim [("x", (⟨"u", 0, 0⟩ : Claim))] "x" "u" =
      (true, aerase [("x", ⟨"u", 0, 0⟩)] "x") :=
  ⟨(release_claim_ignores_expiry [("x", ⟨"u", 0, 0⟩)] 100 "x" "u").2.1,
   (release_claim_ignores_expiry [("x", ⟨"u", 0, 0⟩)] 100 "x" "u").2.2.1
     ⟨"u", 0, 0⟩ (by decide) rfl⟩

/-! ## C10: finalize is a field-wise merge -/

/-- Counterexample for C10 as stated.  A finalize whose body omits
`linked_images` does not leave the field at its previous value when the
review has never had one: the merge writes the empty list (the code's
`data.get('linked_images', review.get('linked_images', []))` default). -/
theorem mergeReview_defaults_linked_images :
    emptyRequest.linked_images = none ∧
    (mergeReview emptyReview emptyRequest 5 "u").linked_images ≠
      emptyReview.linked_images := by
  decide

/-- C10 amended.  A finalize request is a field-wise merge: every review
field whose key is absent from the body keeps its stored value, except
that `linked_images` and `field_locks` are re-stored with their previous
value defaulted to the empty list / empty map when previously unset;
`reviewed_at` and `reviewer` are unconditionally overwritten. -/
theorem mergeReview_fieldwise (review : Review) (data : ReviewRequest)
    (now : Int) (u : String) :
    (data.status = none → (mergeReview review data now u).status = review.status) ∧
    (data.field_code = none →
      (mergeReview review data now u).field_code = review.field_code) ∧
    (data.date = none → (mergeReview review data now u).date = review.date) ∧
    (data.location = none →
      (mergeReview review data now u).location = review.location) ∧
    (data.location_id = none →
      (mergeReview review data now u).location_id = review.location_id) ∧
    (data.name = none → (mergeReview review data now u).name = review.name) ∧
    (data.name_id = none →
      (mergeReview review data now u).name_id = review.name_id) ∧
    (data.notes = none → (mergeReview review data now u).notes = review.notes) ∧
    (data.mo_id_type = none →
      (mergeReview review data now u).mo_id_type = review.mo_id_type) ∧
    (data.mo_id_value = none →
      (mergeReview review data now u).mo_id_value = review.mo_id_value) ∧
    (data.mo_observation_id = none →
      (mergeReview review data now u).mo_observation_id = review.mo_observation_id) ∧
    (data.mo_image_id = none →
      (mergeReview review data now u).mo_image_id = review.mo_image_id) ∧
    (data.mo_observation_url = none →
      (mergeReview review data now u).mo_observation_url = review.mo_observation_url) ∧
    (data.linked_images = none →
      (mergeReview review data now u).linked_images =
        some (review.linked_images.getD [])) ∧
    (data.field_locks = none →
      (mergeReview review data now u).field_locks =
        some (review.field_locks.getD [])) ∧
    (mergeReview review data now u).reviewed_at = some now ∧
    (mergeReview review data now u).reviewer = some u := by
  refine ⟨?_, ?_, ?_, ?_, ?_, ?_, ?_, ?_, ?_, ?_, ?_, ?_, ?_, ?_, ?_, ?_, ?_⟩ <;>
    first
      | (intro h; simp [mergeReview, h])
      | simp [mergeReview]

/-- Witness for C10's amended theorem: an empty body leaves the sample
review's status in place and stamps the reviewer. -/
theorem mergeReview_fieldwise_witness :
    (mergeReview sampleSourceReview emptyRequest 7 "carol").status =
      sampleSourceReview.status ∧
    (mergeReview sampleSourceReview emptyRequest 7 "carol").reviewer =
      some "carol" :=
  ⟨(mergeReview_fieldwise sampleSourceReview emptyRequest 7 "carol").1 rfl,
   (mergeReview_fieldwise sampleSourceReview emptyRequest 7 "carol").2.2.2.2.2.2.2.2.2.2.2.2.2.2.2.2⟩

/-! ## Propagation lemmas (C5, C6) -/

theorem addLink_status (src : String) (t : Review) :
    (addLink src t).status = t.status := by
  simp only [addLink]
  split <;> rfl

theorem addLink_mem (src : String) (t : Review) :
    src ∈ (addLink src t).linked_images.getD [] := by
  simp only [addLink]
  split
  next h => exact h
  next => simp

theorem addLink_of_mem {src : String} {t : Review}
    (h : src ∈ t.linked_images.getD []) : addLink src t = t := by
  simp [addLink, h]

theorem propagate_of_truthy {t : Review} (src : String) (s : Review) (u : String)
    (now : Int) (h : pyTruthyStr t.status = true) :
    propagate_review_data src s u now t = t := by
  simp [propagate_review_data, h]

theorem propagate_status_truthy {t : Review} (src : String) (s : Review)
    (u : String) (now : Int) (h : pyTruthyStr t.status = false) :
    pyTruthyStr (propagate_review_data src s u now t).status = true := by
  simp only [propagate_review_data, h, Bool.false_eq_true, if_false]
  split
  next h1 => rcases h1 with h1 | h1 <;> simp [h1, pyTruthyStr]
  next => simp [pyTruthyStr]

theorem propagate_linked_mem {t : Review} (src : String) (s : Review)
    (u : String) (now : Int) (h : pyTruthyStr t.status = false) :
    src ∈ (propagate_review_data src s u now t).linked_images.getD [] := by
  simp only [propagate_review_data, h, Bool.false_eq_true, if_false]
  split
  next h1 => exact h1
  next => simp

/-! ## C5: propagation into an unset linked target -/

/-- C5.  When a finalize's merged status is terminal, a linked target
whose review status is unset receives a copy of the source's resolved
descriptive fields, the source's own status when it is self-sufficient
(`already_on_mo` or `excluded`) and the generic `approved` otherwise, the
provenance reviewer tag `<user>:propagated_from:<item>`, a fresh
timestamp, and the source's key in its linked set. -/
theorem finalize_propagates_to_unset_target (src : String) (s : Review)
    (u : String) (now : Int) (t : Review)
    (hterm : terminalStatus s.status = true)
    (hunset : pyTruthyStr t.status = false) :
    (finalizeTargetUpdate src s u now t).field_code = s.field_code ∧
    (finalizeTargetUpdate src s u now t).date = s.date ∧
    (finalizeTargetUpdate src s u now t).location = s.location ∧
    (finalizeTargetUpdate src s u now t).location_id = s.location_id ∧
    (finalizeTargetUpdate src s u now t).name = s.name ∧
    (finalizeTargetUpdate src s u now t).name_id = s.name_id ∧
    (finalizeTargetUpdate src s u now t).mo_observation_id = s.mo_observation_id ∧
    (finalizeTargetUpdate src s u now t).mo_id_type = s.mo_id_type ∧
    (finalizeTargetUpdate src s u now t).mo_id_value = s.mo_id_value ∧
    (finalizeTargetUpdate src s u now t).status =
      (if s.status = some "already_on_mo" ∨ s.status = some "excluded"
       then s.status else some "approved") ∧
    (finalizeTargetUpdate src s u now t).reviewer =
      some (u ++ ":propagated_from:" ++ src) ∧
    (finalizeTargetUpdate src s u now t).reviewed_at = some now ∧
    src ∈ (finalizeTargetUpdate src s u now t).linked_images.getD [] := by
  have hst : pyTruthyStr (addLink src t).status = false := by
    rw [addLink_status]
    exact hunset
  have hr : finalizeTargetUpdate src s u now t =
      propagate_review_data src s u now (addLink src t) := by
    simp [finalizeTargetUpdate, hterm]
  rw [hr]
  simp only [propagate_review_data, hst, Bool.false_eq_true, if_false, true_and,
             and_true]
  split
  next h1 => exact h1
  next => simp

/-- Witness for C5: finalizing `"P"` with status `approved` stamps the
empty target with the provenance tag and links it back to `"P"`. -/
theorem finalize_propagates_witness :
    (finalizeTargetUpdate "P" sampleSourceReview "dana" 11 emptyReview).reviewer =
      some "dana:propagated_from:P" ∧
    "P" ∈ (finalizeTargetUpdate "P" sampleSourceReview "dana" 11
            emptyReview).linked_images.getD [] := by
  obtain ⟨-, -, -, -, -, -, -, -, -, -, hrev, -, hmem⟩ :=
    finalize_propagates_to_unset_target "P" sampleSourceReview "dana" 11
      emptyReview (by decide) (by decide)
  exact ⟨hrev, hmem⟩

/-! ## C6: propagation is idempotent per target -/

/-- C6.  Running finalize a second time on the same source with the same
linked set leaves an already-processed target's review record unchanged:
the bidirectional-link step finds the source already in the target's
linked set, and propagation never touches a target whose status is set. -/
theorem finalize_propagation_idempotent (src : String) (s : Review)
    (u : String) (now now2 : Int) (t : Review)
    (hterm : terminalStatus s.status = true) :
    finalizeTargetUpdate src s u now2 (finalizeTargetUpdate src s u now t) =
      finalizeTargetUpdate src s u now t := by
  have key : ∀ r : Review, pyTruthyStr r.status = true →
      src ∈ r.linked_images.getD [] →
      finalizeTargetUpdate src s u now2 r = r := by
    intro r h1 h2
    simp [finalizeTargetUpdate, addLink_of_mem h2, hterm,
          propagate_of_truthy src s u now2 h1]
  by_cases ht : pyTruthyStr t.status = true
  · have h1 : finalizeTargetUpdate src s u now t = addLink src t := by
      have : pyTruthyStr (addLink src t).status = true := by
        rw [addLink_status]
        exact ht
      simp [finalizeTargetUpdate, hterm, propagate_of_truthy src s u now this]
    apply key
    · rw [h1, addLink_status]
      exact ht
    · rw [h1]
      exact addLink_mem src t
  · have ht' : pyTruthyStr t.status = false := by
      simpa using ht
    have hst : pyTruthyStr (addLink src t).status = false := by
      rw [addLink_status]
      exact ht'
    have h1 : finalizeTargetUpdate src s u now t =
        propagate_review_data src s u now (addLink src t) := by
      simp [finalizeTargetUpdate, hterm]
    apply key
    · rw [h1]
      exact propagate_status_truthy src s u now hst
    · rw [h1]
      exact propagate_linked_mem src s u now hst

/-- Witness for C6: a second finalize of `"P"` leaves the propagated
target record exactly as the first one wrote it. -/
theorem finalize_propagation_idempotent_witness :
    finalizeTargetUpdate "P" sampleSourceReview "dana" 12
        (finalizeTargetUpdate "P" sampleSourceReview "dana" 11 emptyReview) =
      finalizeTargetUpdate "P" sampleSourceReview "dana" 11 emptyReview :=
  finalize_propagation_idempotent "P" sampleSourceReview "dana" 11 12
    emptyReview (by decide)

/-! ## C8: view history invariants -/

theorem add_to_view_history_spec (v : String) (h : List String)
    (hnd : h.Nodup) (_hlen : h.length ≤ 100) :
    (add_to_view_history v h).Nodup ∧
    (add_to_view_history v h).length ≤ 100 ∧
    (add_to_view_history v h).head? = some v ∧
    (∀ x ∈ add_to_view_history v h, x = v ∨ x ∈ h) := by
  simp only [add_to_view_history]
  set h1 := if v ∈ h then h.erase v else h with hh1
  have h1nd : h1.Nodup := by
    rw [hh1]
    split
    · exact hnd.erase v
    · exact hnd
  have h1notmem : v ∉ h1 := by
    rw [hh1]
    split
    next hm => exact fun hx => ((hnd.mem_erase_iff).mp hx).1 rfl
    next hm => exact hm
  have h1sub : ∀ x ∈ h1, x ∈ h := by
    rw [hh1]
    split
    · exact fun x hx => List.mem_of_mem_erase hx
    · exact fun x hx => hx
  have h2nd : (v :: h1).Nodup := List.nodup_cons.mpr ⟨h1notmem, h1nd⟩
  split
  next hgt =>
    refine ⟨List.Sublist.nodup (List.take_sublist 100 (v :: h1)) h2nd, ?_, ?_, ?_⟩
    · rw [List.length_take]
      exact min_le_left _ _
    · rw [show (100 : Nat) = 99 + 1 from rfl, List.take_succ_cons]
      rfl
    · intro x hx
      rcases List.mem_cons.mp (List.take_subset 100 (v :: h1) hx) with h' | h'
      · exact Or.inl h'
      · exact Or.inr (h1sub x h')
  next hgt =>
    refine ⟨h2nd, Nat.le_of_not_lt hgt, rfl, ?_⟩
    intro x hx
    rcases List.mem_cons.mp hx with h' | h'
    · exact Or.inl h'
    · exact Or.inr (h1sub x h')

theorem record_views_fold_invariant (views : List String) :
    ∀ acc : List String, acc.Nodup → acc.length ≤ 100 →
      (List.foldl (fun h v => add_to_view_history v h) acc views).Nodup ∧
      (List.foldl (fun h v => add_to_view_history v h) acc views).length ≤ 100 ∧
      (∀ x ∈ List.foldl (fun h v => add_to_view_history v h) acc views,
        x ∈ acc ∨ x ∈ views) := by
  induction views with
  | nil => exact fun acc h1 h2 => ⟨h1, h2, fun x hx => Or.inl hx⟩
  | cons v rest ih =>
    intro acc h1 h2
    obtain ⟨a1, a2, -, a4⟩ := add_to_view_history_spec v acc h1 h2
    obtain ⟨b1, b2, b3⟩ := ih (add_to_view_history v acc) a1 a2
    refine ⟨b1, b2, fun x hx => ?_⟩
    rcases b3 x hx with hx1 | hx1
    · rcases a4 x hx1 with h' | h'
      · exact Or.inr (h' ▸ List.mem_cons_self v rest)
      · exact Or.inl h'
    · exact Or.inr (List.mem_cons_of_mem v hx1)

theorem dedupKeepFirst_nodup (l : List String) : (dedupKeepFirst l).Nodup := by
  induction l with
  | nil => simp [dedupKeepFirst]
  | cons v rest ih =>
    simp only [dedupKeepFirst, List.nodup_cons]
    refine ⟨fun hmem => ?_, List.Nodup.filter _ ih⟩
    have := (List.mem_filter.mp hmem).2
    simp at this

theorem mruOrder_concat (vs : List String) (v : String) :
    mruOrder (vs ++ [v]) = v :: (mruOrder vs).filter (fun x => x != v) := by
  simp [mruOrder, dedupKeepFirst]

theorem add_to_view_history_take (v : String) (M : List String)
    (hnd : M.Nodup) :
    add_to_view_history v (M.take 100) =
      (v :: M.filter (fun x => x != v)).take 100 := by
  have hTnd : (M.take 100).Nodup := (List.take_sublist 100 M).nodup hnd
  have herase : (if v ∈ M.take 100 then (M.take 100).erase v else M.take 100) =
      (M.take 100).filter (fun x => x != v) := by
    split
    next => exact hTnd.erase_eq_filter v
    next hm =>
      symm
      apply List.filter_eq_self.mpr
      intro x hx
      simp only [bne_iff_ne, ne_eq]
      exact fun heq => hm (heq ▸ hx)
  have hpre : (M.take 100).filter (fun x => x != v) <+:
      M.filter (fun x => x != v) :=
    List.IsPrefix.filter _ (List.take_prefix 100 M)
  have hRHS : (v :: M.filter (fun x => x != v)).take 100 =
      v :: (M.filter (fun x => x != v)).take 99 := by
    rw [show (100 : Nat) = 99 + 1 from rfl, List.take_succ_cons]
  rw [hRHS]
  simp only [add_to_view_history, herase]
  split
  next hgt =>
    rw [show (100 : Nat) = 99 + 1 from rfl, List.take_succ_cons]
    congr 1
    have hFTle : ((M.take 100).filter (fun x => x != v)).length ≤ 100 := by
      calc ((M.take 100).filter (fun x => x != v)).length
          ≤ (M.take 100).length := List.length_filter_le _ _
        _ ≤ 100 := by
            rw [List.length_take]
            exact min_le_left _ _
    have hgt' : 100 < ((M.take 100).filter (fun x => x != v)).length + 1 := by
      simpa using hgt
    have hlen : ((M.take 100).filter (fun x => x != v)).length = 100 := by
      omega
    have hFT : (M.take 100).filter (fun x => x != v) =
        (M.filter (fun x => x != v)).take 100 := by
      have h := List.prefix_iff_eq_take.mp hpre
      rwa [hlen] at h
    rw [hFT, List.take_take]
    norm_num
  next hgt =>
    congr 1
    have hle99 : ((M.take 100).filter (fun x => x != v)).length ≤ 99 := by
      simp only [List.length_cons, not_lt] at hgt
      omega
    by_cases hM : M.length ≤ 100
    · have hTM : M.take 100 = M := List.take_of_length_le hM
      rw [hTM] at hle99 ⊢
      symm
      exact List.take_of_length_le hle99
    · push_neg at hM
      have hT100 : (M.take 100).length = 100 := by
        rw [List.length_take]
        omega
      have hdich : ((M.take 100).filter (fun x => x != v)).length = 100 ∨
          ((M.take 100).filter (fun x => x != v)).length + 1 = 100 := by
        rw [← herase]
        split
        next hm =>
          right
          rw [List.length_erase_of_mem hm, hT100]
        next =>
          left
          exact hT100
      have h99 : ((M.take 100).filter (fun x => x != v)).length = 99 := by
        omega
      have h := List.prefix_iff_eq_take.mp hpre
      rwa [h99] at h

theorem record_views_eq_mruOrder (views : List String) :
    record_views views = (mruOrder views).take 100 := by
  induction views using List.reverseRecOn with
  | nil => rfl
  | append_singleton vs v ih =>
    have hstep : record_views (vs ++ [v]) =
        add_to_view_history v (record_views vs) := by
      simp only [record_views, List.foldl_append, List.foldl_cons,
                 List.foldl_nil]
    rw [hstep, ih,
        add_to_view_history_take v (mruOrder vs) (dedupKeepFirst_nodup vs.reverse),
        mruOrder_concat]

/-- C8.  Any sequence of `record_view` calls leaves the user's history
duplicate-free, at most 100 entries long, drawn from the recorded items,
and with the most recently viewed item at the front; reading it back
returns that list most-recent-first.  The final conjunct pins down the
entire list: it equals the recorded views in most-recent-first order,
deduplicated (a re-view counts at its most recent position), truncated to
its first 100 entries — so the entries evicted beyond the cap are exactly
the oldest ones. -/
theorem view_history_spec (views : List String) :
    (record_views views).Nodup ∧
    (record_views views).length ≤ 100 ∧
    (∀ x ∈ record_views views, x ∈ views) ∧
    (views ≠ [] → (record_views views).head? = views.getLast?) ∧
    get_view_history (record_views views) = record_views views ∧
    record_views views = (mruOrder views).take 100 := by
  obtain ⟨h1, h2, h3⟩ :=
    record_views_fold_invariant views [] List.nodup_nil (by simp)
  refine ⟨h1, h2, fun x hx => ?_, fun hne => ?_, rfl,
          record_views_eq_mruOrder views⟩
  · rcases h3 x hx with h' | h'
    · simp at h'
    · exact h'
  · rcases List.eq_nil_or_concat views with rfl | ⟨L, b, rfl⟩
    · exact absurd rfl hne
    · obtain ⟨g1, g2, -⟩ :=
        record_views_fold_invariant L [] List.nodup_nil (by simp)
      have hrec : record_views (L.concat b) =
          add_to_view_history b (record_views L) := by
        simp only [record_views, List.concat_eq_append, List.foldl_append,
                   List.foldl_cons, List.foldl_nil]
      obtain ⟨-, -, hhead, -⟩ := add_to_view_history_spec b (record_views L) g1 g2
      rw [hrec, hhead, List.concat_eq_append, List.getLast?_append]
      rfl

/-- Witness for C8: viewing `a`, `b`, then `a` again yields the
deduplicated history `[a, b]` — most recent first, equal to the truncated
MRU order of the views. -/
theorem view_history_spec_witness :
    (record_views ["a", "b", "a"]).Nodup ∧
    (record_views ["a", "b", "a"]).head? =
      (["a", "b", "a"] : List String).getLast? ∧
    record_views ["a", "b", "a"] = (mruOrder ["a", "b", "a"]).take 100 := by
  obtain ⟨h1, -, -, h4, -, h6⟩ := view_history_spec ["a", "b", "a"]
  exact ⟨h1, h4 (by decide), h6⟩

/-! ## C9: snapshot summary counts -/

theorem summaryStep_fold (imgs : Images) :
    ∀ acc : Summary,
      imgs.foldl summaryStep acc =
        ⟨acc.total,
         acc.reviewed + imgs.countP (fun e => pyTruthyStr e.2.review.status),
         acc.approved +
           imgs.countP (fun e => decide (e.2.review.status = some "approved")),
         acc.corrected +
           imgs.countP (fun e => decide (e.2.review.status = some "corrected")),
         acc.excluded +
           imgs.countP (fun e => decide (e.2.review.status = some "excluded")),
         acc.already_on_mo +
           imgs.countP (fun e => decide (e.2.review.status = some "already_on_mo"))⟩ := by
  induction imgs with
  | nil =>
    intro acc
    cases acc
    simp [List.countP_nil]
  | cons e rest ih =>
    intro acc
    rw [List.foldl_cons, ih]
    rcases he : e.2.review.status with _ | s
    · simp [summaryStep, he, List.countP_cons, pyTruthyStr]
    · by_cases h0 : s = ""
      · subst h0
        simp [summaryStep, he, List.countP_cons, pyTruthyStr]
      · by_cases h1 : s = "approved"
        · subst h1
          simp [summaryStep, he, List.countP_cons, pyTruthyStr,
                Summary.mk.injEq]
          omega
        · by_cases h2 : s = "corrected"
          · subst h2
            simp [summaryStep, he, List.countP_cons, pyTruthyStr,
                  Summary.mk.injEq]
            omega
          · by_cases h3 : s = "excluded"
            · subst h3
              simp [summaryStep, he, List.countP_cons, pyTruthyStr,
                    Summary.mk.injEq]
              omega
            · by_cases h4 : s = "already_on_mo"
              · subst h4
                simp [summaryStep, he, List.countP_cons, pyTruthyStr,
                      Summary.mk.injEq]
                omega
              · simp [summaryStep, he, List.countP_cons, pyTruthyStr, h0, h1,
                      h2, h3, h4, Summary.mk.injEq]
                omega

/-- C9.  The persisted summary is recomputed from the item map on every
snapshot: `reviewed` counts the items whose status is set (truthy), and
each of the four per-status counters counts the items whose status is
exactly that value. -/
theorem save_data_summary_recomputed (imgs : Images) (s : Summary) :
    (save_data_summary imgs s).reviewed =
      imgs.countP (fun e => pyTruthyStr e.2.review.status) ∧
    (save_data_summary imgs s).approved =
      imgs.countP (fun e => decide (e.2.review.status = some "approved")) ∧
    (save_data_summary imgs s).corrected =
      imgs.countP (fun e => decide (e.2.review.status = some "corrected")) ∧
    (save_data_summary imgs s).excluded =
      imgs.countP (fun e => decide (e.2.review.status = some "excluded")) ∧
    (save_data_summary imgs s).already_on_mo =
      imgs.countP (fun e => decide (e.2.review.status = some "already_on_mo")) := by
  rw [save_data_summary, summaryStep_fold]
  simp

/-! ## C1: multi-item acquire is check-then-commit -/

theorem alookup_grantAll_not_mem (fns : List String) (t : ClaimTable)
    (now : Int) (u k : String) (hk : k ∉ fns) :
    alookup (grantAll t now u fns) k = alookup t k := by
  induction fns generalizing t with
  | nil => rfl
  | cons f rest ih =>
    simp only [List.mem_cons, not_or] at hk
    rw [grantAll, List.foldl_cons,
        show List.foldl (fun acc fn => aset acc fn ⟨u, now, now⟩)
            (aset t f ⟨u, now, now⟩) rest =
          grantAll (aset t f ⟨u, now, now⟩) now u rest from rfl,
        ih _ hk.2, alookup_aset_ne _ _ _ _ hk.1]

theorem alookup_grantAll_mem (fns : List String) (t : ClaimTable) (now : Int)
    (u k : String) (hk : k ∈ fns) :
    alookup (grantAll t now u fns) k = some ⟨u, now, now⟩ := by
  induction fns generalizing t with
  | nil => simp at hk
  | cons f rest ih =>
    rw [grantAll, List.foldl_cons,
        show List.foldl (fun acc fn => aset acc fn ⟨u, now, now⟩)
            (aset t f ⟨u, now, now⟩) rest =
          grantAll (aset t f ⟨u, now, now⟩) now u rest from rfl]
    by_cases hr : k ∈ rest
    · exact ih _ hr
    · rcases List.mem_cons.mp hk with rfl | h'
      · rw [alookup_grantAll_not_mem rest _ now u k hr, alookup_aset_self]
      · exact absurd h' hr

theorem mem_multiFailed (t : ClaimTable) (now : Int) (u : String)
    (fns : List String) (fn holder : String) :
    (fn, holder) ∈ multiFailed t now u fns ↔
      fn ∈ fns ∧ ∃ c, alookup t fn = some c ∧ c.user = holder ∧ holder ≠ u ∧
        now - c.claimed_at ≤ CLAIM_OVERRIDE_MINUTES := by
  simp only [multiFailed, List.mem_filterMap]
  constructor
  · rintro ⟨a, ha, hf⟩
    rcases hl : alookup t a with _ | c
    · rw [hl] at hf
      exact Option.noConfusion hf
    · rw [hl] at hf
      have hf' : (if c.user ≠ u ∧ now - c.claimed_at ≤ CLAIM_OVERRIDE_MINUTES
          then some (a, c.user) else none) = some (fn, holder) := hf
      by_cases hc : c.user ≠ u ∧ now - c.claimed_at ≤ CLAIM_OVERRIDE_MINUTES
      · rw [if_pos hc] at hf'
        have hpair := Option.some.inj hf'
        have h1 : a = fn := congrArg Prod.fst hpair
        have h2 : c.user = holder := congrArg Prod.snd hpair
        subst h1
        exact ⟨ha, c, hl, h2, h2 ▸ hc.1, hc.2⟩
      · rw [if_neg hc] at hf'
        exact Option.noConfusion hf'
  · rintro ⟨hfn, c, hc, rfl, hne, hle⟩
    refine ⟨fn, hfn, ?_⟩
    rw [hc]
    show (if c.user ≠ u ∧ now - c.claimed_at ≤ CLAIM_OVERRIDE_MINUTES
        then some (fn, c.user) else none) = some (fn, c.user)
    rw [if_pos ⟨hne, hle⟩]

/-- Counterexample for C1 as stated.  At `now = 100` eve's claim on `"x"`
is expired and bob's claim on `"y"` is live (claimed 5 minutes ago), so
acquiring `["y"]` for alice is denied — yet the table after the call is
not equal to the table before it, because the entry to the call lazily
purged eve's expired claim. -/
theorem try_claim_multiple_purges_expired :
    (try_claim_multiple [("x", ⟨"eve", 0, 0⟩), ("y", ⟨"bob", 95, 95⟩)]
        100 ["y"] "alice").1 = (false, [("y", "bob")]) ∧
    (try_claim_multiple [("x", ⟨"eve", 0, 0⟩), ("y", ⟨"bob", 95, 95⟩)]
        100 ["y"] "alice").2 ≠
      [("x", ⟨"eve", 0, 0⟩), ("y", ⟨"bob", 95, 95⟩)] := by
  decide

/-- C1 amended.  `acquire_multiple` first evaluates every item over the
lazily purged table; a denial returns exactly the (item, holder) pairs
held by another user inside the override window, commits no grant, and
leaves the table equal to its pre-call state with expired claims purged —
i.e. every live pre-call claim survives byte-for-byte and nothing else
appears.  Only when no item blocks are all grants committed in the same
call. -/
theorem try_claim_multiple_atomic (t : ClaimTable) (now : Int)
    (fns : List String) (u : String) (hnd : (t.map Prod.fst).Nodup) :
    ((try_claim_multiple t now fns u).1.1 = false ↔
      (try_claim_multiple t now fns u).1.2 ≠ []) ∧
    (∀ fn holder, (fn, holder) ∈ (try_claim_multiple t now fns u).1.2 ↔
      fn ∈ fns ∧ ∃ c, alookup (cleanup_expired_claims now t) fn = some c ∧
        c.user = holder ∧ holder ≠ u ∧
        now - c.claimed_at ≤ CLAIM_OVERRIDE_MINUTES) ∧
    ((try_claim_multiple t now fns u).1.1 = false →
      (try_claim_multiple t now fns u).2 = cleanup_expired_claims now t ∧
      ∀ k c, alookup (try_claim_multiple t now fns u).2 k = some c ↔
        (alookup t k = some c ∧ claimExpired now c = false)) ∧
    ((try_claim_multiple t now fns u).1.1 = true →
      (∀ fn ∈ fns, alookup (try_claim_multiple t now fns u).2 fn =
        some ⟨u, now, now⟩) ∧
      (∀ k, k ∉ fns → alookup (try_claim_multiple t now fns u).2 k =
        alookup (cleanup_expired_claims now t) k)) := by
  have hclean : ∀ k c, alookup (cleanup_expired_claims now t) k = some c ↔
      (alookup t k = some c ∧ claimExpired now c = false) := by
    intro k c
    rw [cleanup_expired_claims,
        alookup_filter_of_nodup (fun e => !claimExpired now e.2) t hnd k c]
    simp [Bool.not_eq_true']
  by_cases hfail : multiFailed (cleanup_expired_claims now t) now u fns = []
  · have hred : try_claim_multiple t now fns u =
        ((true, []), grantAll (cleanup_expired_claims now t) now u fns) := by
      simp only [try_claim_multiple]
      rw [if_pos hfail]
    rw [hred]
    refine ⟨by simp, fun fn holder => ?_, by simp, fun _ => ?_⟩
    · rw [show (((true, []),
          grantAll (cleanup_expired_claims now t) now u fns) :
            (Bool × List (String × String)) × ClaimTable).1.2 = [] from rfl]
      simp only [List.not_mem_nil, false_iff]
      intro hq
      have := (mem_multiFailed (cleanup_expired_claims now t) now u fns
        fn holder).mpr hq
      rw [hfail] at this
      exact List.not_mem_nil _ this
    · exact ⟨fun fn hfn => alookup_grantAll_mem fns _ now u fn hfn,
        fun k hk => alookup_grantAll_not_mem fns _ now u k hk⟩
  · have hred : try_claim_multiple t now fns u =
        ((false, multiFailed (cleanup_expired_claims now t) now u fns),
         cleanup_expired_claims now t) := by
      simp only [try_claim_multiple]
      rw [if_neg hfail]
    rw [hred]
    refine ⟨by simpa using hfail, fun fn holder => ?_, fun _ => ⟨rfl, hclean⟩,
            by simp⟩
    exact mem_multiFailed (cleanup_expired_claims now t) now u fns fn holder

/-- Witness for C1's amended theorem: on alice's denied multi-claim the
resulting table is exactly the purged pre-call table, and the failed list
is exactly `[("y", "bob")]`. -/
theorem try_claim_multiple_atomic_witness :
    (try_claim_multiple [("x", ⟨"eve", 0, 0⟩), ("y", ⟨"bob", 95, 95⟩)]
        100 ["y"] "alice").2 =
      cleanup_expired_claims 100
        [("x", ⟨"eve", 0, 0⟩), ("y", ⟨"bob", 95, 95⟩)] :=
  ((try_claim_multiple_atomic
      [("x", ⟨"eve", 0, 0⟩), ("y", ⟨"bob", 95, 95⟩)] 100 ["y"] "alice"
      (by decide)).2.2.1 (by decide)).1

/-! ## C7: bidirectional linking -/

theorem linkedOf_mapReview_self (imgs : Images) (k : String)
    (f : Review → Review) :
    linkedOf (mapReview imgs k f) k =
      ((alookup imgs k).map
        (fun img => (f img.review).linked_images.getD [])).getD [] := by
  simp only [linkedOf, mapReview, alookup_aupdate_self]
  cases alookup imgs k <;> rfl

theorem linkedOf_mapReview_ne (imgs : Images) (k k' : String)
    (f : Review → Review) (h : k' ≠ k) :
    linkedOf (mapReview imgs k f) k' = linkedOf imgs k' := by
  simp only [linkedOf, mapReview, alookup_aupdate_ne _ _ _ _ h]

theorem count_addLink_self (src : String) (t : Review)
    (h : ((t.linked_images.getD []).count src) ≤ 1) :
    ((addLink src t).linked_images.getD []).count src = 1 := by
  simp only [addLink]
  split
  next hm =>
    have h1 : 0 < (t.linked_images.getD []).count src :=
      List.count_pos_iff.mpr hm
    omega
  next hm =>
    simp [List.count_append, List.count_eq_zero.mpr hm, List.count_singleton]

theorem not_mem_removeLink (src : String) (t : Review)
    (h : ((t.linked_images.getD []).count src) ≤ 1) :
    src ∉ (removeLink src t).linked_images.getD [] := by
  simp only [removeLink]
  split
  next hm =>
    simp only [Option.getD_some]
    rw [← List.count_eq_zero (a := src)]
    rw [List.count_erase_self]
    have h1 : 0 < (t.linked_images.getD []).count src :=
      List.count_pos_iff.mpr hm
    omega
  next hm => exact hm

theorem removeLink_of_not_mem {src : String} {t : Review}
    (h : src ∉ t.linked_images.getD []) : removeLink src t = t := by
  simp [removeLink, h]

/-- C7.  `link` fails with NotFound when either key is absent (leaving the
store untouched); a successful `link(a,b)` puts `b` into `a`'s linked set
and `a` into `b`'s, without ever producing a duplicate entry; a
successful `unlink(a,b)` (which requires the caller to hold the claim on
`a`) removes both memberships. -/
theorem link_unlink_spec (imgs : Images) (claims : ClaimTable) (now : Int)
    (u a tf : String) (htf : tf ≠ "") :
    (hasImage imgs a = false →
      api_link_image imgs claims now u a (some tf) =
        (.notFoundSource, imgs, claims)) ∧
    (hasImage imgs a = true → hasImage imgs tf = false →
      api_link_image imgs claims now u a (some tf) =
        (.notFoundTarget, imgs, claims)) ∧
    (hasImage imgs a = true → hasImage imgs tf = true →
      (try_claim_multiple claims now [a, tf] u).1.1 = true →
      (api_link_image imgs claims now u a (some tf)).1 = .success ∧
      tf ∈ linkedOf (api_link_image imgs claims now u a (some tf)).2.1 a ∧
      a ∈ linkedOf (api_link_image imgs claims now u a (some tf)).2.1 tf ∧
      ((linkedOf imgs a).count tf ≤ 1 →
        (linkedOf (api_link_image imgs claims now u a (some tf)).2.1 a).count tf
          = 1) ∧
      ((linkedOf imgs tf).count a ≤ 1 →
        (linkedOf (api_link_image imgs claims now u a (some tf)).2.1 tf).count a
          = 1)) ∧
    (hasImage imgs a = true → hasImage imgs tf = true →
      (∀ c, alookup (cleanup_expired_claims now claims) a = some c →
        c.user = u) →
      (alookup (cleanup_expired_claims now claims) a).isSome = true →
      (api_unlink_image imgs claims now u a (some tf)).1 = .success ∧
      ((linkedOf imgs a).count tf ≤ 1 →
        tf ∉ linkedOf (api_unlink_image imgs claims now u a (some tf)).2.1 a) ∧
      ((linkedOf imgs tf).count a ≤ 1 →
        a ∉ linkedOf (api_unlink_image imgs claims now u a (some tf)).2.1 tf)) := by
  have htt : pyTruthyStr (some tf) = true := by
    simp [pyTruthyStr, htf]
  refine ⟨fun hA => ?_, fun hA hB => ?_, fun hA hB hclaim => ?_,
          fun hA hB hown hsome => ?_⟩
  · simp [api_link_image, htt, hA]
  · simp [api_link_image, htt, hA, hB]
  · obtain ⟨imgA, hiA⟩ := Option.isSome_iff_exists.mp hA
    obtain ⟨imgB, hiB⟩ := Option.isSome_iff_exists.mp hB
    have hred : api_link_image imgs claims now u a (some tf) =
        (.success, mapReview (mapReview imgs a (addLink tf)) tf (addLink a),
         (try_claim_multiple claims now [a, tf] u).2) := by
      simp [api_link_image, htt, hA, hB, hclaim]
    rw [hred]
    by_cases hab : a = tf
    · subst hab
      have hself : linkedOf (mapReview (mapReview imgs a (addLink a)) a
          (addLink a)) a =
          (addLink a (addLink a imgA.review)).linked_images.getD [] := by
        rw [linkedOf_mapReview_self]
        simp only [mapReview, alookup_aupdate_self, hiA]
        rfl
      refine ⟨rfl, ?_, ?_, fun hcount => ?_, fun hcount => ?_⟩
      · rw [hself]
        exact addLink_mem a _
      · rw [hself]
        exact addLink_mem a _
      · rw [hself, addLink_of_mem (addLink_mem a imgA.review),
            count_addLink_self]
        have : linkedOf imgs a = imgA.review.linked_images.getD [] := by
          simp [linkedOf, hiA]
        rw [← this]
        exact hcount
      · rw [hself, addLink_of_mem (addLink_mem a imgA.review),
            count_addLink_self]
        have : linkedOf imgs a = imgA.review.linked_images.getD [] := by
          simp [linkedOf, hiA]
        rw [← this]
        exact hcount
    · have hba : ¬ (tf = a) := fun h' => hab h'.symm
      have hsideA : linkedOf (mapReview (mapReview imgs a (addLink tf)) tf
          (addLink a)) a = (addLink tf imgA.review).linked_images.getD [] := by
        rw [linkedOf_mapReview_ne _ _ _ _ hab, linkedOf_mapReview_self]
        simp [hiA]
      have hsideB : linkedOf (mapReview (mapReview imgs a (addLink tf)) tf
          (addLink a)) tf = (addLink a imgB.review).linked_images.getD [] := by
        rw [linkedOf_mapReview_self]
        simp only [mapReview, alookup_aupdate_ne _ _ _ _ hba, hiB]
        rfl
      have hLA : linkedOf imgs a = imgA.review.linked_images.getD [] := by
        simp [linkedOf, hiA]
      have hLB : linkedOf imgs tf = imgB.review.linked_images.getD [] := by
        simp [linkedOf, hiB]
      refine ⟨rfl, ?_, ?_, fun hcount => ?_, fun hcount => ?_⟩
      · rw [hsideA]
        exact addLink_mem tf _
      · rw [hsideB]
        exact addLink_mem a _
      · rw [hsideA, count_addLink_self]
        rw [← hLA]
        exact hcount
      · rw [hsideB, count_addLink_self]
        rw [← hLB]
        exact hcount
  · obtain ⟨imgA, hiA⟩ := Option.isSome_iff_exists.mp hA
    obtain ⟨imgB, hiB⟩ := Option.isSome_iff_exists.mp hB
    obtain ⟨c, hc⟩ := Option.isSome_iff_exists.mp hsome
    have hcu : c.user = u := hown c hc
    have hred : api_unlink_image imgs claims now u a (some tf) =
        (.success, mapReview (mapReview imgs a (removeLink tf)) tf
          (removeLink a), cleanup_expired_claims now claims) := by
      simp [api_unlink_image, htt, hA, hB, hc, hcu]
    rw [hred]
    have hLA : linkedOf imgs a = imgA.review.linked_images.getD [] := by
      simp [linkedOf, hiA]
    have hLB : linkedOf imgs tf = imgB.review.linked_images.getD [] := by
      simp [linkedOf, hiB]
    by_cases hab : a = tf
    · subst hab
      have hself : linkedOf (mapReview (mapReview imgs a (removeLink a)) a
          (removeLink a)) a =
          (removeLink a (removeLink a imgA.review)).linked_images.getD [] := by
        rw [linkedOf_mapReview_self]
        simp only [mapReview, alookup_aupdate_self, hiA]
        rfl
      refine ⟨rfl, fun hcount => ?_, fun hcount => ?_⟩ <;>
      · rw [hself, removeLink_of_not_mem
            (not_mem_removeLink a imgA.review (hLA ▸ hcount))]
        exact not_mem_removeLink a imgA.review (hLA ▸ hcount)
    · have hba : ¬ (tf = a) := fun h' => hab h'.symm
      have hsideA : linkedOf (mapReview (mapReview imgs a (removeLink tf)) tf
          (removeLink a)) a =
          (removeLink tf imgA.review).linked_images.getD [] := by
        rw [linkedOf_mapReview_ne _ _ _ _ hab, linkedOf_mapReview_self]
        simp [hiA]
      have hsideB : linkedOf (mapReview (mapReview imgs a (removeLink tf)) tf
          (removeLink a)) tf =
          (removeLink a imgB.review).linked_images.getD [] := by
        rw [linkedOf_mapReview_self]
        simp only [mapReview, alookup_aupdate_ne _ _ _ _ hba, hiB]
        rfl
      refine ⟨rfl, fun hcount => ?_, fun hcount => ?_⟩
      · rw [hsideA]
        exact not_mem_removeLink tf imgA.review (hLA ▸ hcount)
      · rw [hsideB]
        exact not_mem_removeLink a imgB.review (hLB ▸ hcount)

/-- Witness for C7: linking `"a"` to `"b"` in the sample store succeeds
and records both memberships. -/
theorem link_unlink_spec_witness :
    (api_link_image sampleImages [] 0 "u" "a" (some "b")).1 = .success ∧
    "b" ∈ linkedOf (api_link_image sampleImages [] 0 "u" "a" (some "b")).2.1 "a" ∧
    "a" ∈ linkedOf (api_link_image sampleImages [] 0 "u" "a" (some "b")).2.1 "b" := by
  obtain ⟨h1, h2, h3, -, -⟩ :=
    (link_unlink_spec sampleImages [] 0 "u" "a" "b" (by decide)).2.2.1
      (by decide) (by decide) (by decide)
  exact ⟨h1, h2, h3⟩

/-! ## C4: next-unresolved navigation -/

theorem pyTruthyStr_eq_some (current : Option String)
    (h : pyTruthyStr current = true) : current = some (current.getD "") := by
  cases current
  · simp [pyTruthyStr] at h
  · rfl

theorem mem_orderedInsert (le : String → String → Bool) (a fn : String)
    (l : List String) :
    fn ∈ orderedInsert le a l ↔ fn = a ∨ fn ∈ l := by
  induction l with
  | nil => simp [orderedInsert]
  | cons b l ih =>
    simp only [orderedInsert]
    split
    · simp
    · simp only [List.mem_cons, ih]
      tauto

theorem mem_insertionSort (le : String → String → Bool) (fn : String)
    (l : List String) : fn ∈ insertionSort le l ↔ fn ∈ l := by
  induction l with
  | nil => simp [insertionSort]
  | cons a l ih =>
    simp [insertionSort, mem_orderedInsert, ih]

theorem mem_searchOrder (imgs : Images) (current : Option String)
    (fn : String) :
    fn ∈ searchOrder imgs current ↔ fn ∈ imgs.map Prod.fst := by
  have hrot : ∀ (l : List String) (n : Nat), fn ∈ l.drop n ++ l.take n ↔ fn ∈ l := by
    intro l n
    rw [List.mem_append, or_comm, ← List.mem_append, List.take_append_drop]
  simp only [searchOrder, get_sorted_images]
  rw [hrot]
  exact mem_insertionSort _ fn _

theorem mem_searchList (imgs : Images) (current : Option String)
    (exclude : List String) (fn : String) :
    fn ∈ searchList imgs current exclude ↔
      fn ∈ imgs.map Prod.fst ∧
      (pyTruthyStr current = true → fn ≠ current.getD "") ∧
      fn ∉ exclude := by
  simp only [searchList]
  by_cases hex : exclude.isEmpty = true
  · have hexnil : exclude = [] := by
      cases exclude
      · rfl
      · simp [List.isEmpty] at hex
    subst hexnil
    rw [if_pos hex]
    by_cases hcur : pyTruthyStr current = true
    · rw [if_pos hcur]
      simp [List.mem_filter, mem_searchOrder, hcur]
    · rw [if_neg hcur]
      simp [mem_searchOrder, hcur]
  · rw [if_neg hex]
    by_cases hcur : pyTruthyStr current = true
    · rw [if_pos hcur]
      simp only [List.mem_filter, mem_searchOrder, decide_eq_true_eq,
                 Bool.not_eq_true', hcur, forall_const]
      constructor
      · rintro ⟨⟨h1, h2⟩, h3⟩
        refine ⟨h1, h2, ?_⟩
        simpa using h3
      · rintro ⟨h1, h2, h3⟩
        refine ⟨⟨h1, h2⟩, ?_⟩
        simpa using h3
    · rw [if_neg hcur]
      simp [List.mem_filter, mem_searchOrder, hcur]

theorem nextUnreviewedPred_iff (imgs : Images) (cleaned : ClaimTable)
    (username fn : String) (img : Image)
    (hlook : alookup imgs fn = some img) :
    nextUnreviewedPred imgs cleaned username fn = true ↔
      (isResolvedReview img.review = false ∧
       ∀ c, alookup cleaned fn = some c → c.user = username) := by
  simp only [nextUnreviewedPred, hlook]
  split
  next heq =>
    simp [heq, Bool.not_eq_true']
  next c heq =>
    simp [heq, Bool.not_eq_true']

/-- C4.  `next_unresolved` only ever returns an existing item that is not
the (truthy) current item, is outside the exclusion set, is not resolved
(terminal status or an upstream observation reference), and is not
live-claimed by another user over the purged claim table; and it returns
none exactly when no such qualifying item exists anywhere in the store —
the rotated search order wraps past the end of canonical order back to the
start, so every qualifying item is reachable from any starting point. -/
theorem get_next_unreviewed_spec (imgs : Images) (claims : ClaimTable)
    (now : Int) (username : String) (current : Option String)
    (exclude : List String) :
    (∀ fn,
      get_next_unreviewed_for_user imgs claims now username current exclude =
        some fn →
      qualifiesNext imgs claims now username current exclude fn) ∧
    (get_next_unreviewed_for_user imgs claims now username current exclude =
        none ↔
      ∀ fn, ¬ qualifiesNext imgs claims now username current exclude fn) := by
  constructor
  · intro fn hfind
    have hpred := List.find?_some hfind
    have hmem := List.mem_of_find?_eq_some hfind
    rw [mem_searchList] at hmem
    obtain ⟨hkeys, hcur, hexc⟩ := hmem
    obtain ⟨img, hlook⟩ := alookup_isSome_of_mem imgs fn hkeys
    obtain ⟨hres, hclaim⟩ :=
      (nextUnreviewedPred_iff imgs _ username fn img hlook).mp hpred
    refine ⟨img, hlook, fun ht => ?_, hexc, hres, hclaim⟩
    rw [pyTruthyStr_eq_some current ht]
    intro heq
    exact hcur ht (Option.some.inj heq).symm
  · constructor
    · intro hnone fn hq
      obtain ⟨img, hlook, hcur, hexc, hres, hclaim⟩ := hq
      have hkeys := mem_of_alookup_eq_some imgs fn img hlook
      have hmem : fn ∈ searchList imgs current exclude := by
        rw [mem_searchList]
        refine ⟨hkeys, fun ht => ?_, hexc⟩
        intro heq
        exact hcur ht (by rw [pyTruthyStr_eq_some current ht, heq])
      have := List.find?_eq_none.mp hnone fn hmem
      exact this ((nextUnreviewedPred_iff imgs _ username fn img hlook).mpr
        ⟨hres, hclaim⟩)
    · intro hforall
      apply List.find?_eq_none.mpr
      intro fn hmem hpred
      rw [mem_searchList] at hmem
      obtain ⟨hkeys, hcur, hexc⟩ := hmem
      obtain ⟨img, hlook⟩ := alookup_isSome_of_mem imgs fn hkeys
      obtain ⟨hres, hclaim⟩ :=
        (nextUnreviewedPred_iff imgs _ username fn img hlook).mp hpred
      refine hforall fn ⟨img, hlook, fun ht => ?_, hexc, hres, hclaim⟩
      rw [pyTruthyStr_eq_some current ht]
      intro heq
      exact hcur ht (Option.some.inj heq).symm

/-- Witness for C4: in the sample store with `"a"` current, navigation
returns `"b"`, which therefore qualifies. -/
theorem get_next_unreviewed_spec_witness :
    qualifiesNext sampleImages [] 0 "u" (some "a") [] "b" :=
  (get_next_unreviewed_spec sampleImages [] 0 "u" (some "a") []).1 "b"
    (by decide)

end NemfReview
